import Mathlib

/-!
Verification of the knowledge-selection walk model of the ASK repository.

The authoritative source is src/KnowledgeSelection/Model/model.py
(class KnowledgeSelectionModel).  Its torch sub-modules (NodeSelector,
KnowledgeSelector, reward_function, loss_function) are imported there from
files that are not part of the sources; where a property depends on them
they are modelled from the specification (each such definition carries a
doc comment starting with "Modelled from the spec:").  Machine floats are
embedded as rationals, batch tensors as lists indexed by example.
-/

namespace KnowledgeSelection

/-- Configuration mapping `opt`: the keys read by
`KnowledgeSelectionModel.__init__` (model.py lines 21-33) that the verified
numeric state depends on.  Optimizer/scheduler keys (`lr`, `epochs`,
`rollouts`, `samples`, ...) are consumed only by the optimizer construction
and the logging driver and are omitted here. -/
structure Opt where
  batch_size : Nat
  max_hops : Nat
  early_stop : Bool
  base_poolsize : Nat
  min_poolsize : Nat
  reward : Rat × Rat × Rat
  precision : String

/-- Numeric state of `KnowledgeSelectionModel` as set up by `__init__`
(model.py lines 21-33).  The learned torch sub-modules built there
(InputLayer, GATv2, NodeSelector, KnowledgeSelector) are embedded
separately as a `Components` record of step functions passed to `forward`. -/
structure KnowledgeSelectionModel where
  batch_size : Nat
  max_hops : Nat
  label_smoothing_rate : Rat
  avg_pool_size : Rat
  early_stop : Bool
  base_poolsize : Nat
  min_poolsize : Nat
  node_reward : Rat
  knowledge_reward : Rat
  pool_reward : Rat
  precision : String
  mask : Rat

/-- `KnowledgeSelectionModel.__init__` (model.py lines 21-33):
`label_smoothing_rate` is the literal 0.15 (line 23), `avg_pool_size`
starts at 0 (line 24), the reward triple is unpacked from `opt["reward"]`
(line 28), and the mask is -6e4 when `opt["precision"] == "16"` and -1e6
otherwise (lines 30-33). -/
def KnowledgeSelectionModel.init (opt : Opt) : KnowledgeSelectionModel :=
  { batch_size := opt.batch_size
    max_hops := opt.max_hops
    label_smoothing_rate := 15 / 100
    avg_pool_size := 0
    early_stop := opt.early_stop
    base_poolsize := opt.base_poolsize
    min_poolsize := opt.min_poolsize
    node_reward := opt.reward.1
    knowledge_reward := opt.reward.2.1
    pool_reward := opt.reward.2.2
    precision := opt.precision
    mask := if opt.precision = "16" then -60000 else -1000000 }

/-- Value returned by one `self.node_selector(...)` call (model.py lines
70-72): the updated loop-carried node state (agent_state, current_node,
current_activation, current_score, bundled as `state`), the sampling
probability of the chosen node, and the supervised node NLL. -/
structure NodeOut (σ : Type) where
  state : σ
  prob : Rat
  node_nll : Rat

/-- Value returned by one `self.knowledge_selector(...)` call (model.py
lines 74-75): the knowledge pool (per-example lists of item ids), the
supervised knowledge NLL, the raw per-item scores `raw_kp`, and the mean
pool size `mean_k` used by the early-stop check. -/
structure KnowOut (ρ : Type) where
  knowledge_pool : List (List Nat)
  knowledge_nll : Rat
  raw_kp : ρ
  mean_k : Rat

/-- Value returned by one `reward_function(...)` call (model.py lines
77-78): the per-example reward tensor for the current hop, the top-k
accuracy vector, and the three-term reward breakdown. -/
structure RewardOut (τ ε : Type) where
  current_reward : List Rat
  topk_acc : τ
  reward_detail : ε

/-- The three callables invoked inside the hop loop of `forward`.
`nodeSel` abstracts `self.node_selector` applied to the loop-constant batch
inputs; it receives the label-smoothing rate and the loop-carried state.
`knowSel` abstracts `self.knowledge_selector`; as a Python module object it
may carry internal state across calls within one forward pass, threaded
here as `μ`.  `rewardFn` abstracts `reward_function` applied to the
loop-constant reward weights and batch gold sets. -/
structure Components (σ μ ρ τ ε : Type) where
  nodeSel : Rat → σ → NodeOut σ
  knowSel : Rat → σ → μ → KnowOut ρ × μ
  rewardFn : σ → List (List Nat) → ρ → RewardOut τ ε

/-- Everything bound during one iteration of the hop loop (model.py lines
69-84): the loop-carried state before (`pre`) and after (`state`) the
node-selector call, and the values of all per-hop Python bindings. -/
structure HopData (σ ρ τ ε : Type) where
  pre : σ
  state : σ
  prob : Rat
  node_nll : Rat
  pool : List (List Nat)
  knowledge_nll : Rat
  raw_kp : ρ
  mean_k : Rat
  reward : List Rat
  topk_acc : τ
  reward_detail : ε

variable {σ μ ρ τ ε δ υ : Type}

/-- One iteration body of the hop loop (model.py lines 70-80): the node
selector advances the state, the knowledge selector produces the pool from
the updated state, and `reward_function` scores the hop. -/
def execHop (c : Components σ μ ρ τ ε) (rate : Rat) (st : σ) (ms : μ) :
    HopData σ ρ τ ε × μ :=
  let n := c.nodeSel rate st
  let k := (c.knowSel rate n.state ms).1
  let ms' := (c.knowSel rate n.state ms).2
  let r := c.rewardFn n.state k.knowledge_pool k.raw_kp
  (⟨st, n.state, n.prob, n.node_nll, k.knowledge_pool, k.knowledge_nll,
    k.raw_kp, k.mean_k, r.current_reward, r.topk_acc, r.reward_detail⟩, ms')

/-- The hop loop `for step in range(0, self.max_hops)` of model.py lines
69-84, returning the list of executed hops in order.  After each fully
executed hop, if `early_stop` is enabled and `mean_k < avg_pool_size` the
loop breaks (lines 82-84); `avg_pool_size` is not reassigned inside the
loop, so the comparison always uses the value held at entry to `forward`. -/
def hopSeq (c : Components σ μ ρ τ ε) (earlyStop : Bool) (avgPool rate : Rat) :
    Nat → σ → μ → List (HopData σ ρ τ ε)
  | 0, _, _ => []
  | n + 1, st, ms =>
    let h := execHop c rate st ms
    if earlyStop = true ∧ h.1.mean_k < avgPool then [h.1]
    else h.1 :: hopSeq c earlyStop avgPool rate n h.1.state h.2

/-- The hop sequence executed by `forward` on model `m`: the loop runs with
the model's `early_stop` flag, its entry `avg_pool_size`, its
`label_smoothing_rate` (passed to both selector calls each hop, lines 72
and 75), and `max_hops` as the hop budget. -/
def KnowledgeSelectionModel.forwardHops (m : KnowledgeSelectionModel)
    (c : Components σ μ ρ τ ε) (st0 : σ) (ms0 : μ) : List (HopData σ ρ τ ε) :=
  hopSeq c m.early_stop m.avg_pool_size m.label_smoothing_rate m.max_hops st0 ms0

/-- The tuple returned by `forward` (model.py line 92): (result, topk_acc,
pool_size, reward, reward_detail, knowledge_pool, raw_kp). -/
structure ForwardOut (ρ τ ε : Type) where
  result : List (Rat × List Rat × Rat × Rat)
  topk_acc : τ
  pool_size : Nat
  reward : Rat
  reward_detail : ε
  knowledge_pool : List (List Nat)
  raw_kp : ρ

/-- `KnowledgeSelectionModel.forward` (model.py lines 57-92).  After the
hop loop, lines 86-92 read `knowledge_pool`, `current_reward`, `topk_acc`,
`raw_kp`, `reward_detail`: the bindings left by the last executed hop
(each iteration overwrites the previous one's).  With `max_hops = 0` the
loop body never runs, those names are never bound, and line 86 raises
UnboundLocalError — embedded as `none`.  `pool_size` is the summed pool
length, `reward = torch.sum(current_reward)` is the batch sum of the last
hop's per-example reward, and when not training `avg_pool_size` is
reassigned to `pool_size / len(knowledge_pool)` (lines 89-90). -/
def KnowledgeSelectionModel.forward (m : KnowledgeSelectionModel)
    (c : Components σ μ ρ τ ε) (training : Bool) (st0 : σ) (ms0 : μ) :
    Option (ForwardOut ρ τ ε × KnowledgeSelectionModel) :=
  let hops := m.forwardHops c st0 ms0
  match hops.getLast? with
  | none => none
  | some last =>
    let pool_size := (last.pool.map List.length).sum
    let reward := last.reward.sum
    let m' := if training then m
      else { m with avg_pool_size := (pool_size : Rat) / (last.pool.length : Rat) }
    some ({ result := hops.map (fun h => (h.prob, h.reward, h.node_nll, h.knowledge_nll)),
            topk_acc := last.topk_acc, pool_size := pool_size, reward := reward,
            reward_detail := last.reward_detail, knowledge_pool := last.pool,
            raw_kp := last.raw_kp }, m')

/-- Modelled from the spec: `loss_function`, imported by model.py from
KnowledgeSelection.Model.model_utils which is not among the sources.
Spec section 4.5: given the ordered per-hop (probability, reward,
node_nll, knowledge_nll) tuples, the total loss is the mean over hops of
(node_nll + knowledge_nll) — supervised cross-entropy terms only, the
reward entries are not read — realised as the per-hop list of
`node_nll + knowledge_nll` whose mean the caller takes by dividing by
`len(loss)`.  The second component is the 3-way (walk, node, knowledge)
breakdown for diagnostic logging; the walk entry reflects the sampling
probabilities (its exact combination is a logging detail the spec leaves
open, and no theorem below depends on it). -/
def loss_function (result : List (Rat × List Rat × Rat × Rat)) :
    List Rat × (Rat × Rat × Rat) :=
  (result.map (fun r => r.2.2.1 + r.2.2.2),
   ((result.map (fun r => r.1)).sum,
    (result.map (fun r => r.2.2.1)).sum,
    (result.map (fun r => r.2.2.2)).sum))

/-- `training_step` (model.py lines 97-106): runs `forward` in training
mode, applies `loss_function` to `result`, sets `num_steps = len(loss)`
and returns `sum(loss) / num_steps`.  The failure of `forward` (hop loop
never entered) propagates. -/
def KnowledgeSelectionModel.training_step (m : KnowledgeSelectionModel)
    (c : Components σ μ ρ τ ε) (st0 : σ) (ms0 : μ) :
    Option (Rat × KnowledgeSelectionModel) :=
  match m.forward c true st0 ms0 with
  | none => none
  | some (out, m') =>
    let losses := (loss_function out.result).1
    some (losses.sum / (losses.length : Rat), m')

/-- One entry of `training_step_outputs` / `validation_step_outputs`
(model.py lines 104 and 119): the tuple (topk_acc, pool_size, reward,
reward_detail, loss_detail, num_steps) appended after each step. -/
structure StepOutput (τ ε δ : Type) where
  topk_acc : τ
  pool_size : Rat
  reward : Rat
  reward_detail : ε
  loss_detail : δ
  num_steps : Nat

/-- `KnowledgeSelectionModel.log_outputs` (model.py lines 139-176)
restricted to its effect on model state: it sums the batches' pool sizes
(lines 143, 154), divides by `num` when positive (lines 157, 163), and
writes the result to `self.avg_pool_size` exactly when `self.training` is
true (lines 166-167).  The remaining accumulators (loss_detail,
reward_detail, acc, avg_steps, reward) and every `self.log` call are pure
logging outputs that never reach model state and are omitted. -/
def KnowledgeSelectionModel.log_outputs (m : KnowledgeSelectionModel)
    (training : Bool) (step_outputs : List (StepOutput τ ε δ)) (num : Nat) :
    KnowledgeSelectionModel :=
  let apool0 := (step_outputs.map (fun o => o.pool_size)).sum
  let apool := if 0 < num then apool0 / (num : Rat) else apool0
  if training then { m with avg_pool_size := apool } else m

/-- A concrete configuration (full precision) used to evaluate the model on
closed inputs. -/
def optA : Opt :=
  { batch_size := 4, max_hops := 2, early_stop := false, base_poolsize := 40
    min_poolsize := 1, reward := (1, 1, 1 / 10), precision := "32" }

/-- The same configuration under half precision. -/
def opt16 : Opt := { optA with precision := "16" }

/-- The model built from `optA`. -/
def modelA : KnowledgeSelectionModel := KnowledgeSelectionModel.init optA

/-- A model whose hop budget is zero. -/
def modelH0 : KnowledgeSelectionModel := { modelA with max_hops := 0 }

/-- A model with early stopping enabled and a positive stored running
average, so that a hop reporting mean pool size 0 triggers the break. -/
def modelES : KnowledgeSelectionModel :=
  { modelA with early_stop := true, avg_pool_size := 1 }

/-- Trivial concrete components: every hop returns the same fixed outputs. -/
def unitComponents : Components Unit Unit Unit Unit Unit :=
  { nodeSel := fun _ _ => ⟨(), 0, 0⟩
    knowSel := fun _ _ _ => (⟨[[0]], 0, (), 0⟩, ())
    rewardFn := fun _ _ _ => ⟨[0], (), ()⟩ }

/-- Concrete components over a counter state: hop at state s moves to s + 1
and earns per-example reward [s + 1], so the two hops of `modelA` earn
rewards 1 and then 2. -/
def cexComponents : Components Nat Unit Unit Unit Unit :=
  { nodeSel := fun _ s => ⟨s + 1, 0, 0⟩
    knowSel := fun _ _ _ => (⟨[[0]], 0, (), 0⟩, ())
    rewardFn := fun s _ _ => ⟨[(s : Rat)], (), ()⟩ }

/-- A concrete logged step output with batch pool size 5. -/
def stepOut5 : StepOutput Unit Unit Unit :=
  { topk_acc := (), pool_size := 5, reward := 0, reward_detail := ()
    loss_detail := (), num_steps := 2 }

/-- The same trivial components with a different `reward_function`. -/
def unitComponentsR : Components Unit Unit Unit Unit Unit :=
  { unitComponents with rewardFn := fun _ _ _ => ⟨[7], (), ()⟩ }

/-- The part of a hop's data that does not come from `reward_function`:
everything bound by the two selector calls. -/
structure HopCore (σ : Type) where
  pre : σ
  state : σ
  prob : Rat
  node_nll : Rat
  pool : List (List Nat)
  knowledge_nll : Rat
  mean_k : Rat

/-- Projection of a hop's data onto its selector-produced part. -/
def HopData.core (h : HopData σ ρ τ ε) : HopCore σ :=
  ⟨h.pre, h.state, h.prob, h.node_nll, h.pool, h.knowledge_nll, h.mean_k⟩

/-- Modelled from the spec: the ranking step of the top-k accuracy
computation inside `reward_function` (imported by model.py from
KnowledgeSelection.Model.model_utils, which is not among the sources).
Spec section 4.4: top-k accuracy is computed "by ranking raw knowledge
scores against gold set membership at each cutoff (All = full pool)".
Items of a scored pool are ranked by descending raw score. -/
def rankByScore (scored : List (Nat × Rat)) : List Nat :=
  (scored.mergeSort (fun a b => decide (b.2 ≤ a.2))).map Prod.fst

/-- Modelled from the spec: whether the top-k cut of the ranked pool
contains a gold item (glossary: "Top-k accuracy: fraction of examples
where the gold item appears among the top k scored candidates"). -/
def hitTopK (gold : List Nat) (scored : List (Nat × Rat)) (k : Nat) : Bool :=
  ((rankByScore scored).take k).any (fun i => gold.contains i)

/-- Modelled from the spec: the "All" cutoff, ranging over the full pool. -/
def hitTopAll (gold : List Nat) (scored : List (Nat × Rat)) : Bool :=
  (rankByScore scored).any (fun i => gold.contains i)

/-- Modelled from the spec: top-k accuracy of `reward_function` over a
batch, each example being a gold set paired with its scored pool: the
fraction of examples whose top-k cut contains a gold item. -/
def topkAccuracy (batch : List (List Nat × List (Nat × Rat))) (k : Nat) : Rat :=
  ((batch.filter (fun e => hitTopK e.1 e.2 k)).length : Rat) / (batch.length : Rat)

/-- Modelled from the spec: top-All accuracy over a batch. -/
def topAllAccuracy (batch : List (List Nat × List (Nat × Rat))) : Rat :=
  ((batch.filter (fun e => hitTopAll e.1 e.2)).length : Rat) / (batch.length : Rat)

/-- Modelled from the spec: KnowledgeSelector's candidate ranking (the
selector is imported by model.py from KnowledgeSelection.Model.Knowledge,
which is not among the sources).  Spec section 4.3: each candidate
knowledge item is scored; items are ordered by descending score so that
the top-scored ones can pad the selection up to the floor. -/
def sortByScore (cands : List (Nat × Rat)) : List (Nat × Rat) :=
  cands.mergeSort (fun a b => decide (b.2 ≤ a.2))

/-- Modelled from the spec: the items kept by one knowledge-selection call —
the natural cut above the threshold, padded up with top-scored items
whenever the cut falls below the minimum pool-size floor. -/
def selectedItems (minp : Nat) (threshold : Rat)
    (cands : List (Nat × Rat)) : List (Nat × Rat) :=
  if ((sortByScore cands).filter (fun c => decide (threshold < c.2))).length < minp
  then (sortByScore cands).take minp
  else (sortByScore cands).filter (fun c => decide (threshold < c.2))

/-- Modelled from the spec: one per-example knowledge-selection call, which
per section 4.3 must "Accumulate selected items into the running
KnowledgePool (deduplicated union, not replacement)": the running pool is
extended by the freshly selected item ids not already present. -/
def selectKnowledge (minp : Nat) (threshold : Rat)
    (cands : List (Nat × Rat)) (pool : List Nat) : List Nat :=
  pool ++ ((selectedItems minp threshold cands).map Prod.fst).filter
    (fun i => decide (i ∉ pool))

/-- Modelled from the spec: the vectorized batch application of
`selectKnowledge`, one candidate list per example index. -/
def selectBatch (minp : Nat) (threshold : Rat) (candf : Nat → List (Nat × Rat)) :
    Nat → List (List Nat) → List (List Nat)
  | _, [] => []
  | j, p :: ps =>
      selectKnowledge minp threshold (candf j) p ::
        selectBatch minp threshold candf (j + 1) ps

/-- Modelled from the spec: KnowledgeSelector as the stateful module called
in the hop loop (model.py lines 74-75 pass it only the batch and the updated
agent state, so the running pool lives inside the module and persists across
the calls of one forward pass).  The candidate items offered at a hop are an
arbitrary function `candf` of the post-selection agent state and the example
index; the per-example pools are the module state, extended by
`selectKnowledge`; `mean_k` is the mean pool size across the batch; the
supervised NLL is abstract. -/
def knowledgeComponents (ns : Rat → σ → NodeOut σ)
    (rf : σ → List (List Nat) → Unit → RewardOut Unit Unit)
    (minp : Nat) (threshold : Rat) (candf : σ → Nat → List (Nat × Rat))
    (nllf : σ → Rat) : Components σ (List (List Nat)) Unit Unit Unit :=
  { nodeSel := ns
    knowSel := fun _ st pools =>
      let pools' := selectBatch minp threshold (candf st) 0 pools
      (⟨pools', nllf st, (),
        ((pools'.map List.length).sum : Rat) / (pools'.length : Rat)⟩, pools')
    rewardFn := rf }

/-- Trivial node selector over a unit state, for concrete evaluation. -/
def unitNodeSel : Rat → Unit → NodeOut Unit := fun _ _ => ⟨(), 0, 0⟩

/-- Trivial reward function over unit data, for concrete evaluation. -/
def unitRewardFn : Unit → List (List Nat) → Unit → RewardOut Unit Unit :=
  fun _ _ _ => ⟨[0], (), ()⟩

/-- One constant candidate item with id 0 and score 1, offered every hop. -/
def constCandf : Unit → Nat → List (Nat × Rat) := fun _ _ => [(0, 1)]

/-- Walk state of the spec-modelled node selector: the agent state
(abstract type υ), the current node, the VisitTrace activation flags (the
set of candidate indices already visited — model.py line 63's
current_activation) and the accumulated per-node score (line 64's
current_score). -/
structure NodeState (υ : Type) where
  agent : υ
  current_node : Nat
  visited : Finset Nat
  score : Nat → Rat

/-- Candidate nodes not yet marked visited in the VisitTrace. -/
def unvisited (cands : List Nat) (st : NodeState υ) : List Nat :=
  cands.filter (fun i => decide (i ∉ st.visited))

/-- Modelled from the spec: the selection distribution of NodeSelector
(imported by model.py from KnowledgeSelection.Model.Node, which is not
among the sources).  Spec sections 4.2 and 8: per-candidate scores are
normalized to a distribution after already-visited nodes are suppressed
via the large-negative mask, so that "the chosen node's probability mass
must be 0 for any node already marked visited in VisitTrace": visited
nodes carry zero mass, unvisited candidates the normalized weight. -/
def nodeProb (w : Nat → Rat) (cands : List Nat) (st : NodeState υ)
    (i : Nat) : Rat :=
  if i ∈ st.visited then 0
  else w i / ((unvisited cands st).map w).sum

/-- Modelled from the spec: the node chosen by one selector call.  `pick`
abstracts the training-time sampler / inference-time arg-max over the
unvisited candidates (either way the choice is supported on the unvisited
set, which carries all probability mass); when every candidate is already
visited the selector clamps to the current, already-visited node (spec 4.2
edge case). -/
def chooseFrom (pick : List Nat → Option Nat) (cands : List Nat)
    (st : NodeState υ) : Nat :=
  match pick (unvisited cands st) with
  | some n => n
  | none => st.current_node

/-- Modelled from the spec: one NodeSelector call — choose a node from the
masked distribution, mark it visited, accumulate its score, propagate the
agent state from the chosen node (`upd`, at the configured propagation
rate), and return the chosen node's sampling probability and the
supervised NLL (abstract `nllf`). -/
def nodeSelStep (pick : List Nat → Option Nat) (w : υ → Nat → Rat)
    (upd : υ → Nat → υ) (nllf : υ → Rat) (cands : List Nat) :
    Rat → NodeState υ → NodeOut (NodeState υ) := fun _ st =>
  { state :=
      { agent := upd st.agent (chooseFrom pick cands st)
        current_node := chooseFrom pick cands st
        visited := insert (chooseFrom pick cands st) st.visited
        score := fun i => if i = chooseFrom pick cands st
          then st.score i + w st.agent i else st.score i }
    prob := nodeProb (w st.agent) cands st (chooseFrom pick cands st)
    node_nll := nllf st.agent }

/-- Deterministic picker taking the first unvisited candidate. -/
def pickHead : List Nat → Option Nat := fun l => l.head?

/-- Concrete components around the spec-modelled node selector over three
candidate nodes with unit weights. -/
def nodeWalkComponents : Components (NodeState Unit) Unit Unit Unit Unit :=
  { nodeSel := nodeSelStep pickHead (fun _ _ => 1) (fun u _ => u)
      (fun _ => 0) [0, 1, 2]
    knowSel := fun _ _ _ => (⟨[[0]], 0, (), 0⟩, ())
    rewardFn := fun _ _ _ => ⟨[0], (), ()⟩ }

/-- Initial walk state at root node 0 with nothing visited. -/
def nodeWalkStart : NodeState Unit :=
  { agent := (), current_node := 0, visited := ∅, score := fun _ => 0 }

/-! ### Basic facts about the hop loop -/

theorem hopSeq_eq_nil_iff (c : Components σ μ ρ τ ε) (es : Bool)
    (ap rate : Rat) (n : Nat) (st : σ) (ms : μ) :
    hopSeq c es ap rate n st ms = [] ↔ n = 0 := by
  cases n with
  | zero => simp [hopSeq]
  | succ k =>
    simp only [hopSeq]
    split <;> simp

theorem hopSeq_mean_lt_length (c : Components σ μ ρ τ ε) (ap rate : Rat) :
    ∀ (n : Nat) (st : σ) (ms : μ) (k : Nat)
      (hk : k < (hopSeq c true ap rate n st ms).length),
      ((hopSeq c true ap rate n st ms).get ⟨k, hk⟩).mean_k < ap →
      (hopSeq c true ap rate n st ms).length = k + 1 := by
  intro n
  induction n with
  | zero => intro st ms k hk; simp [hopSeq] at hk
  | succ n ih =>
    intro st ms k hk hlt
    by_cases hc : (execHop c rate st ms).1.mean_k < ap
    · have hL : hopSeq c true ap rate (n + 1) st ms = [(execHop c rate st ms).1] := by
        simp [hopSeq, hc]
      rw [hL]
      rw [hL] at hk
      simp at hk ⊢
      omega
    · have hL : hopSeq c true ap rate (n + 1) st ms =
          (execHop c rate st ms).1 ::
            hopSeq c true ap rate n (execHop c rate st ms).1.state
              (execHop c rate st ms).2 := by
        simp [hopSeq, hc]
    -- after unfolding, split on whether k is the head position
      cases k with
      | zero =>
        exfalso
        apply hc
        have := hlt
        rw [List.get_of_eq hL] at this
        simpa using this
      | succ k =>
        have hk' : k < (hopSeq c true ap rate n (execHop c rate st ms).1.state
            (execHop c rate st ms).2).length := by
          rw [hL] at hk; simpa using hk
        have hlt' : ((hopSeq c true ap rate n (execHop c rate st ms).1.state
            (execHop c rate st ms).2).get ⟨k, hk'⟩).mean_k < ap := by
          have := hlt
          rw [List.get_of_eq hL] at this
          simpa using this
        have := ih (execHop c rate st ms).1.state (execHop c rate st ms).2 k hk' hlt'
        rw [hL]
        simp [this]

theorem hopSeq_length_le (c : Components σ μ ρ τ ε) (es : Bool)
    (ap rate : Rat) : ∀ (n : Nat) (st : σ) (ms : μ),
    (hopSeq c es ap rate n st ms).length ≤ n := by
  intro n
  induction n with
  | zero => intro st ms; simp [hopSeq]
  | succ n ih =>
    intro st ms
    simp only [hopSeq]
    split
    · simp
    · simpa using ih _ _

theorem execHop_core_congr (c c' : Components σ μ ρ τ ε)
    (hn : c'.nodeSel = c.nodeSel) (hk : c'.knowSel = c.knowSel)
    (rate : Rat) (st : σ) (ms : μ) :
    (execHop c' rate st ms).1.core = (execHop c rate st ms).1.core
    ∧ (execHop c' rate st ms).2 = (execHop c rate st ms).2 := by
  simp [execHop, HopData.core, hn, hk]

theorem hopSeq_core_congr (c c' : Components σ μ ρ τ ε)
    (hn : c'.nodeSel = c.nodeSel) (hk : c'.knowSel = c.knowSel)
    (es : Bool) (ap rate : Rat) : ∀ (n : Nat) (st : σ) (ms : μ),
    (hopSeq c' es ap rate n st ms).map HopData.core =
      (hopSeq c es ap rate n st ms).map HopData.core := by
  intro n
  induction n with
  | zero => intro st ms; simp [hopSeq]
  | succ n ih =>
    intro st ms
    have hco := execHop_core_congr c c' hn hk rate st ms
    have hmean : (execHop c' rate st ms).1.mean_k = (execHop c rate st ms).1.mean_k :=
      congrArg HopCore.mean_k hco.1
    have hstate : (execHop c' rate st ms).1.state = (execHop c rate st ms).1.state :=
      congrArg HopCore.state hco.1
    simp only [hopSeq, hmean]
    split
    · simp [hco.1]
    · simp only [List.map_cons, hco.1, hstate, hco.2, ih]

theorem forward_eq_map (m : KnowledgeSelectionModel)
    (c : Components σ μ ρ τ ε) (training : Bool) (st0 : σ) (ms0 : μ) :
    m.forward c training st0 ms0 =
      (m.forwardHops c st0 ms0).getLast?.map (fun last =>
        ({ result := (m.forwardHops c st0 ms0).map
              (fun h => (h.prob, h.reward, h.node_nll, h.knowledge_nll)),
           topk_acc := last.topk_acc,
           pool_size := (last.pool.map List.length).sum,
           reward := last.reward.sum,
           reward_detail := last.reward_detail,
           knowledge_pool := last.pool, raw_kp := last.raw_kp },
         if training then m
         else { m with avg_pool_size :=
            (((last.pool.map List.length).sum : Nat) : Rat) / (last.pool.length : Rat) })) := by
  unfold KnowledgeSelectionModel.forward
  cases h : (m.forwardHops c st0 ms0).getLast? <;> simp [h]

theorem training_step_value (m : KnowledgeSelectionModel)
    (c : Components σ μ ρ τ ε) (st0 : σ) (ms0 : μ) :
    (m.training_step c st0 ms0).map Prod.fst =
      (m.forwardHops c st0 ms0).getLast?.map (fun _ =>
        ((m.forwardHops c st0 ms0).map (fun h => h.node_nll + h.knowledge_nll)).sum /
          ((m.forwardHops c st0 ms0).length : Rat)) := by
  unfold KnowledgeSelectionModel.training_step
  rw [forward_eq_map]
  cases hlast : (m.forwardHops c st0 ms0).getLast? with
  | none => simp
  | some last =>
    simp only [loss_function, List.map_map, List.length_map, Option.map_some',
      Option.some.injEq]
    rfl

/-- C1 (counterexample): the claim that the scalar reward returned by
`forward` is the running sum of the per-hop reward terms over all executed
hops is false on the code.  At this concrete input (max_hops = 2, early
stopping disabled so never triggered, per-hop batch rewards 1 and then 2)
`forward` returns `torch.sum(current_reward)` of the final hop only, namely
2, while the running sum over the executed hops recorded in `result` is 3. -/
theorem c1_counterexample :
    (KnowledgeSelectionModel.forward modelA cexComponents true 0 ()).map
        (fun p => p.1.reward) ≠
      (KnowledgeSelectionModel.forward modelA cexComponents true 0 ()).map
        (fun p => (p.1.result.map (fun r => r.2.1.sum)).sum) := by
  have h2 : modelA.max_hops = 2 := rfl
  have hes : modelA.early_stop = false := rfl
  simp only [KnowledgeSelectionModel.forward, KnowledgeSelectionModel.forwardHops,
    h2, hes, hopSeq, execHop, cexComponents]
  norm_num

/-- C1 (amended): the scalar reward returned by `forward` equals the batch
sum of the FINAL executed hop's per-example reward (`current_reward` is
rebound every iteration and line 87 sums only its last value); the earlier
hops' rewards survive only inside the per-hop `result` list. -/
theorem c1_amended_reward_is_final_hop_sum (m : KnowledgeSelectionModel)
    (c : Components σ μ ρ τ ε) (training : Bool) (st0 : σ) (ms0 : μ) :
    (m.forward c training st0 ms0).map (fun p => p.1.reward) =
      (m.forwardHops c st0 ms0).getLast?.map (fun l => l.reward.sum) := by
  unfold KnowledgeSelectionModel.forward
  cases h : (m.forwardHops c st0 ms0).getLast? <;> simp [h]

/-- C2 (counterexample): the claim that every operation executed in
training mode leaves `avg_pool_size` unchanged is false on the code:
`log_outputs` overwrites the field exactly when `self.training` is true
(model.py lines 166-167).  Concretely, from `avg_pool_size = 0`, logging in
training mode one step output of pool size 5 with `num = 1` sets it to 5. -/
theorem c2_counterexample :
    ¬ (KnowledgeSelectionModel.log_outputs modelA true [stepOut5] 1).avg_pool_size
        = modelA.avg_pool_size := by
  have h0 : modelA.avg_pool_size = 0 := rfl
  simp only [KnowledgeSelectionModel.log_outputs, stepOut5, h0]
  norm_num

/-- C2 (amended): `forward` updates `avg_pool_size` only in non-training
mode (in training mode it leaves the field unchanged, and in eval mode it
stores `pool_size / len(knowledge_pool)` of the final hop), while
`log_outputs` updates it only in TRAINING mode (storing the accumulated
average pool size) and leaves it unchanged in eval mode — so it is not the
case that all training-mode operations leave the field unchanged. -/
theorem c2_amended_avg_pool_size_update_modes (m : KnowledgeSelectionModel)
    (c : Components σ μ ρ τ ε) (st0 : σ) (ms0 : μ)
    (outs : List (StepOutput τ ε δ)) (num : Nat) :
    ((m.forward c true st0 ms0).map (fun p => p.2.avg_pool_size) =
        (m.forward c true st0 ms0).map (fun _ => m.avg_pool_size))
    ∧ ((m.forward c false st0 ms0).map (fun p => p.2.avg_pool_size) =
        (m.forwardHops c st0 ms0).getLast?.map
          (fun l => (((l.pool.map List.length).sum : Nat) : Rat) /
            (l.pool.length : Rat)))
    ∧ ((m.log_outputs false outs num).avg_pool_size = m.avg_pool_size)
    ∧ ((m.log_outputs true outs num).avg_pool_size =
        if 0 < num then (outs.map (fun o => o.pool_size)).sum / (num : Rat)
        else (outs.map (fun o => o.pool_size)).sum) := by
  refine ⟨?_, ?_, ?_, ?_⟩
  · unfold KnowledgeSelectionModel.forward
    cases h : (m.forwardHops c st0 ms0).getLast? <;> simp [h]
  · unfold KnowledgeSelectionModel.forward
    cases h : (m.forwardHops c st0 ms0).getLast? <;> simp [h]
  · simp [KnowledgeSelectionModel.log_outputs]
  · simp [KnowledgeSelectionModel.log_outputs]

/-- C3: in a forward pass with early stopping enabled, if the mean pool
size reported by the knowledge selector at executed hop k (0-based) is
below the stored running average `avg_pool_size` held at entry, then the
hop loop terminates immediately after hop k: exactly k + 1 hops execute,
so no hop k + 1 runs. -/
theorem c3_early_stop_terminates (m : KnowledgeSelectionModel)
    (c : Components σ μ ρ τ ε) (st0 : σ) (ms0 : μ)
    (he : m.early_stop = true) (k : Nat)
    (hk : k < (m.forwardHops c st0 ms0).length)
    (hlt : ((m.forwardHops c st0 ms0).get ⟨k, hk⟩).mean_k < m.avg_pool_size) :
    (m.forwardHops c st0 ms0).length = k + 1 := by
  revert hk hlt
  unfold KnowledgeSelectionModel.forwardHops
  rw [he]
  intro hk hlt
  exact hopSeq_mean_lt_length c m.avg_pool_size m.label_smoothing_rate
    m.max_hops st0 ms0 k hk hlt

/-- C3 (witness): on the concrete model with early stopping enabled,
stored average 1 and components reporting mean pool size 0, the walk
executes exactly one hop. -/
theorem c3_early_stop_terminates_witness :
    (KnowledgeSelectionModel.forwardHops modelES unitComponents () ()).length = 0 + 1 :=
  c3_early_stop_terminates modelES unitComponents () () rfl 0 (by decide) (by decide)

/-- C8: the large-negative mask magnitude is selected from the precision
configuration at construction: it equals -6e4 exactly when the precision
string equals "16", and -1e6 in every other case. -/
theorem c8_mask_precision (opt : Opt) :
    ((KnowledgeSelectionModel.init opt).mask = -60000 ↔ opt.precision = "16")
    ∧ (opt.precision ≠ "16" →
        (KnowledgeSelectionModel.init opt).mask = -1000000) := by
  unfold KnowledgeSelectionModel.init
  constructor
  · by_cases h : opt.precision = "16" <;> simp [h]
  · intro h
    simp [h]

/-- C8 (witness): under the concrete half-precision configuration the mask
is -6e4, and under the full-precision one it is -1e6. -/
theorem c8_mask_precision_witness :
    (KnowledgeSelectionModel.init opt16).mask = -60000
    ∧ (KnowledgeSelectionModel.init optA).mask = -1000000 :=
  ⟨(c8_mask_precision opt16).1.mpr rfl, (c8_mask_precision optA).2 (by decide)⟩

/-- C9: the label smoothing rate is the internal constant 0.15 = 3/20 for
every configuration (it is not read from the configuration mapping), and
the hop loop runs with exactly this rate, which `execHop` passes to the
node-selector and knowledge-selector calls of every hop. -/
theorem c9_label_smoothing_fixed (opt : Opt) (c : Components σ μ ρ τ ε)
    (st0 : σ) (ms0 : μ) :
    (KnowledgeSelectionModel.init opt).label_smoothing_rate = 3 / 20
    ∧ (KnowledgeSelectionModel.init opt).forwardHops c st0 ms0 =
        hopSeq c (KnowledgeSelectionModel.init opt).early_stop
          (KnowledgeSelectionModel.init opt).avg_pool_size (3 / 20)
          (KnowledgeSelectionModel.init opt).max_hops st0 ms0 := by
  constructor
  · norm_num [KnowledgeSelectionModel.init]
  · unfold KnowledgeSelectionModel.forwardHops
    norm_num [KnowledgeSelectionModel.init]

/-- C10: the topk_acc, knowledge_pool and raw_kp values returned by
`forward` are exactly those of the final executed hop (each iteration
overwrites the previous bindings, which survive only in the `result`
list), and `forward` is undefined precisely when `max_hops = 0`, since
then the loop body never binds those names. -/
theorem c10_outputs_from_final_hop (m : KnowledgeSelectionModel)
    (c : Components σ μ ρ τ ε) (training : Bool) (st0 : σ) (ms0 : μ) :
    ((m.forward c training st0 ms0).map
        (fun p => (p.1.topk_acc, p.1.knowledge_pool, p.1.raw_kp)) =
      (m.forwardHops c st0 ms0).getLast?.map
        (fun l => (l.topk_acc, l.pool, l.raw_kp)))
    ∧ (m.forward c training st0 ms0 = none ↔ m.max_hops = 0) := by
  constructor
  · unfold KnowledgeSelectionModel.forward
    cases h : (m.forwardHops c st0 ms0).getLast? <;> simp [h]
  · unfold KnowledgeSelectionModel.forward
    cases h : (m.forwardHops c st0 ms0).getLast? <;> simp [h]
    · rw [List.getLast?_eq_none_iff] at h
      rw [KnowledgeSelectionModel.forwardHops, hopSeq_eq_nil_iff] at h
      simp [h]
    · intro hmax
      rw [List.getLast?_eq_some_iff] at h
      obtain ⟨l', hl'⟩ := h
      have hne : m.forwardHops c st0 ms0 ≠ [] := by
        intro hnil
        rw [hnil] at hl'
        simp at hl'
      apply hne
      unfold KnowledgeSelectionModel.forwardHops
      rw [hopSeq_eq_nil_iff]
      exact hmax

/-- C4: the training loss equals the mean over the hops actually executed
of the per-hop supervised terms (node_nll + knowledge_nll), normalized by
the true number of executed hops — a count that is only bounded by
max_hops — and the reward terms do not enter the loss: replacing
`reward_function` by any other one (same selectors) leaves the training
loss unchanged. -/
theorem c4_training_loss_mean_over_executed_hops (m : KnowledgeSelectionModel)
    (c c' : Components σ μ ρ τ ε) (st0 : σ) (ms0 : μ)
    (x : Rat × KnowledgeSelectionModel)
    (hx : m.training_step c st0 ms0 = some x)
    (hn : c'.nodeSel = c.nodeSel) (hk : c'.knowSel = c.knowSel) :
    x.1 = ((m.forwardHops c st0 ms0).map
        (fun h => h.node_nll + h.knowledge_nll)).sum /
        ((m.forwardHops c st0 ms0).length : Rat)
    ∧ (m.forwardHops c st0 ms0).length ≤ m.max_hops
    ∧ (m.training_step c' st0 ms0).map Prod.fst = some x.1 := by
  have hval := training_step_value m c st0 ms0
  rw [hx] at hval
  cases hlast : (m.forwardHops c st0 ms0).getLast? with
  | none =>
    rw [hlast] at hval
    simp at hval
  | some last =>
    rw [hlast] at hval
    simp only [Option.map_some', Option.some.injEq] at hval
    have hcore : (m.forwardHops c' st0 ms0).map HopData.core =
        (m.forwardHops c st0 ms0).map HopData.core :=
      hopSeq_core_congr c c' hn hk m.early_stop m.avg_pool_size
        m.label_smoothing_rate m.max_hops st0 ms0
    have hnll : (m.forwardHops c' st0 ms0).map
        (fun h => h.node_nll + h.knowledge_nll) =
        (m.forwardHops c st0 ms0).map (fun h => h.node_nll + h.knowledge_nll) := by
      have e1 : (m.forwardHops c' st0 ms0).map
          (fun h => h.node_nll + h.knowledge_nll) =
          ((m.forwardHops c' st0 ms0).map HopData.core).map
            (fun hc => hc.node_nll + hc.knowledge_nll) := by
        rw [List.map_map]
        rfl
      have e2 : (m.forwardHops c st0 ms0).map
          (fun h => h.node_nll + h.knowledge_nll) =
          ((m.forwardHops c st0 ms0).map HopData.core).map
            (fun hc => hc.node_nll + hc.knowledge_nll) := by
        rw [List.map_map]
        rfl
      rw [e1, e2, hcore]
    have hlen : (m.forwardHops c' st0 ms0).length =
        (m.forwardHops c st0 ms0).length := by
      have := congrArg List.length hcore
      simpa using this
    refine ⟨hval, ?_, ?_⟩
    · exact hopSeq_length_le c m.early_stop m.avg_pool_size
        m.label_smoothing_rate m.max_hops st0 ms0
    · have hval' := training_step_value m c' st0 ms0
      cases hlast' : (m.forwardHops c' st0 ms0).getLast? with
      | none =>
        exfalso
        rw [List.getLast?_eq_none_iff] at hlast'
        have h0 : (m.forwardHops c st0 ms0).length = 0 := by
          rw [← hlen, hlast']
          rfl
        have : m.forwardHops c st0 ms0 = [] := List.length_eq_zero.mp h0
        rw [this] at hlast
        simp at hlast
      | some l' =>
        rw [hlast'] at hval'
        simp only [Option.map_some'] at hval'
        rw [hval', hnll, hlen, hval]

/-- C4 (witness): on the concrete two-hop run with all NLL terms 0 the
training loss evaluates to 0 = (0 + 0) / 2, two executed hops stay within
the budget, and swapping in a different reward function gives the same
loss. -/
theorem c4_training_loss_witness :
    (0 : Rat) = ((modelA.forwardHops unitComponents () ()).map
        (fun h => h.node_nll + h.knowledge_nll)).sum /
        ((modelA.forwardHops unitComponents () ()).length : Rat)
    ∧ (modelA.forwardHops unitComponents () ()).length ≤ modelA.max_hops
    ∧ (modelA.training_step unitComponentsR () ()).map Prod.fst = some (0 : Rat) := by
  have h2 : modelA.max_hops = 2 := rfl
  have hes : modelA.early_stop = false := rfl
  have hx : modelA.training_step unitComponents () () = some ((0 : Rat), modelA) := by
    simp only [KnowledgeSelectionModel.training_step, KnowledgeSelectionModel.forward,
      KnowledgeSelectionModel.forwardHops, h2, hes, hopSeq, execHop,
      unitComponents, loss_function]
    norm_num
  exact c4_training_loss_mean_over_executed_hops modelA unitComponents
    unitComponentsR () () ((0 : Rat), modelA) hx rfl rfl

theorem hitTopK_mono (gold : List Nat) (scored : List (Nat × Rat))
    {k k' : Nat} (hkk : k ≤ k') (h : hitTopK gold scored k = true) :
    hitTopK gold scored k' = true := by
  rw [hitTopK, List.any_eq_true] at h ⊢
  obtain ⟨x, hx, hgx⟩ := h
  refine ⟨x, ?_, hgx⟩
  have e : ((rankByScore scored).take k').take k = (rankByScore scored).take k := by
    rw [List.take_take]
    congr 1
    exact Nat.min_eq_left hkk
  rw [← e] at hx
  exact List.take_subset _ _ hx

theorem hitTopK_le_all (gold : List Nat) (scored : List (Nat × Rat))
    (k : Nat) (h : hitTopK gold scored k = true) :
    hitTopAll gold scored = true := by
  rw [hitTopK, List.any_eq_true] at h
  rw [hitTopAll, List.any_eq_true]
  obtain ⟨x, hx, hgx⟩ := h
  exact ⟨x, List.take_subset _ _ hx, hgx⟩

theorem filter_length_mono {α : Type} (l : List α) (p q : α → Bool)
    (h : ∀ x ∈ l, p x = true → q x = true) :
    (l.filter p).length ≤ (l.filter q).length := by
  rw [← List.countP_eq_length_filter, ← List.countP_eq_length_filter]
  exact List.countP_mono_left h

theorem rat_div_le_div (a b : Rat) (n : Nat) (h : a ≤ b) :
    a / (n : Rat) ≤ b / (n : Rat) := by
  rcases Nat.eq_zero_or_pos n with h0 | hpos
  · simp [h0]
  · have hn : (0 : Rat) < (n : Rat) := by exact_mod_cast hpos
    exact (div_le_div_iff_of_pos_right hn).mpr h

/-- C7: for any fixed batch of scored knowledge pools and any gold sets,
the top-k accuracies computed by the reward aggregator satisfy the chain
top-1 ≤ top-5 ≤ top-10 ≤ top-All. -/
theorem c7_topk_accuracy_ordering (batch : List (List Nat × List (Nat × Rat))) :
    topkAccuracy batch 1 ≤ topkAccuracy batch 5
    ∧ topkAccuracy batch 5 ≤ topkAccuracy batch 10
    ∧ topkAccuracy batch 10 ≤ topAllAccuracy batch := by
  refine ⟨?_, ?_, ?_⟩
  · apply rat_div_le_div
    apply Nat.cast_le.mpr
    apply filter_length_mono
    intro x _ hx
    exact hitTopK_mono x.1 x.2 (by norm_num) hx
  · apply rat_div_le_div
    apply Nat.cast_le.mpr
    apply filter_length_mono
    intro x _ hx
    exact hitTopK_mono x.1 x.2 (by norm_num) hx
  · apply rat_div_le_div
    apply Nat.cast_le.mpr
    apply filter_length_mono
    intro x _ hx
    exact hitTopK_le_all x.1 x.2 10 hx

theorem selectedItems_sublist (minp : Nat) (threshold : Rat)
    (cands : List (Nat × Rat)) :
    (selectedItems minp threshold cands).Sublist (sortByScore cands) := by
  unfold selectedItems
  split
  · exact List.take_sublist _ _
  · exact List.filter_sublist _

theorem selectedItems_length (minp : Nat) (threshold : Rat)
    (cands : List (Nat × Rat)) (hlen : minp ≤ cands.length) :
    minp ≤ (selectedItems minp threshold cands).length := by
  have hs : (sortByScore cands).length = cands.length := by
    unfold sortByScore
    exact List.length_mergeSort cands
  unfold selectedItems
  split
  · rw [List.length_take, hs]
    omega
  · omega

theorem sortByScore_fst_nodup (cands : List (Nat × Rat))
    (hc : (cands.map Prod.fst).Nodup) :
    ((sortByScore cands).map Prod.fst).Nodup := by
  have hperm := (List.mergeSort_perm cands (fun a b => decide (b.2 ≤ a.2))).map Prod.fst
  exact hperm.symm.nodup hc

theorem selectKnowledge_superset (minp : Nat) (threshold : Rat)
    (cands : List (Nat × Rat)) (pool : List Nat) :
    pool ⊆ selectKnowledge minp threshold cands pool :=
  List.subset_append_left _ _

theorem selectKnowledge_nodup (minp : Nat) (threshold : Rat)
    (cands : List (Nat × Rat)) (pool : List Nat) (hp : pool.Nodup)
    (hc : (cands.map Prod.fst).Nodup) :
    (selectKnowledge minp threshold cands pool).Nodup := by
  unfold selectKnowledge
  apply List.Nodup.append hp
  · apply List.Sublist.nodup (List.filter_sublist _)
    exact (((selectedItems_sublist minp threshold cands).map Prod.fst).nodup
      (sortByScore_fst_nodup cands hc))
  · intro a ha hmem
    have := (List.mem_filter.mp hmem).2
    exact (of_decide_eq_true this) ha

theorem selectKnowledge_min_size (minp : Nat) (threshold : Rat)
    (cands : List (Nat × Rat)) (pool : List Nat)
    (hc : (cands.map Prod.fst).Nodup) (hlen : minp ≤ cands.length) :
    minp ≤ (selectKnowledge minp threshold cands pool).length := by
  have hidnodup : ((selectedItems minp threshold cands).map Prod.fst).Nodup :=
    ((selectedItems_sublist minp threshold cands).map Prod.fst).nodup
      (sortByScore_fst_nodup cands hc)
  have hsub : (selectedItems minp threshold cands).map Prod.fst ⊆
      selectKnowledge minp threshold cands pool := by
    intro i hi
    unfold selectKnowledge
    rw [List.mem_append]
    by_cases hpool : i ∈ pool
    · exact Or.inl hpool
    · refine Or.inr (List.mem_filter.mpr ⟨hi, ?_⟩)
      exact decide_eq_true hpool
  have h1 : ((selectedItems minp threshold cands).map Prod.fst).length ≤
      (selectKnowledge minp threshold cands pool).length :=
    (hidnodup.subperm hsub).length_le
  have h2 : minp ≤ ((selectedItems minp threshold cands).map Prod.fst).length := by
    rw [List.length_map]
    exact selectedItems_length minp threshold cands hlen
  omega

theorem selectBatch_forall₂ (minp : Nat) (threshold : Rat)
    (candf : Nat → List (Nat × Rat)) :
    ∀ (j : Nat) (pools : List (List Nat)),
      List.Forall₂ (fun x y => x ⊆ y) pools (selectBatch minp threshold candf j pools) := by
  intro j pools
  induction pools generalizing j with
  | nil => simp [selectBatch]
  | cons p ps ih =>
    rw [selectBatch]
    exact List.Forall₂.cons (selectKnowledge_superset _ _ _ _) (ih (j + 1))

theorem selectBatch_mem (minp : Nat) (threshold : Rat)
    (candf : Nat → List (Nat × Rat))
    (hcand : ∀ j, minp ≤ (candf j).length ∧ ((candf j).map Prod.fst).Nodup) :
    ∀ (j : Nat) (pools : List (List Nat)), (∀ p ∈ pools, p.Nodup) →
      ∀ q ∈ selectBatch minp threshold candf j pools, minp ≤ q.length ∧ q.Nodup := by
  intro j pools
  induction pools generalizing j with
  | nil => intro _ q hq; simp [selectBatch] at hq
  | cons p ps ih =>
    intro hnd q hq
    rw [selectBatch] at hq
    rcases List.mem_cons.mp hq with hq | hq
    · subst hq
      have hpn : p.Nodup := hnd p (List.mem_cons_self p ps)
      exact ⟨selectKnowledge_min_size minp threshold (candf j) p
          (hcand j).2 (hcand j).1,
        selectKnowledge_nodup minp threshold (candf j) p hpn (hcand j).2⟩
    · exact ih (j + 1) (fun r hr => hnd r (List.mem_cons_of_mem p hr)) q hq

theorem knowledge_loop_invariant (ns : Rat → σ → NodeOut σ)
    (rf : σ → List (List Nat) → Unit → RewardOut Unit Unit)
    (minp : Nat) (threshold : Rat) (candf : σ → Nat → List (Nat × Rat))
    (nllf : σ → Rat) (es : Bool) (ap rate : Rat)
    (hcand : ∀ st j, minp ≤ (candf st j).length ∧ ((candf st j).map Prod.fst).Nodup) :
    ∀ (n : Nat) (st : σ) (pools : List (List Nat)), (∀ p ∈ pools, p.Nodup) →
      List.Chain' (List.Forall₂ (fun x y => x ⊆ y))
        (pools :: (hopSeq (knowledgeComponents ns rf minp threshold candf nllf)
            es ap rate n st pools).map HopData.pool)
      ∧ ∀ h ∈ hopSeq (knowledgeComponents ns rf minp threshold candf nllf)
            es ap rate n st pools,
          ∀ p ∈ h.pool, minp ≤ p.length ∧ p.Nodup := by
  intro n
  induction n with
  | zero =>
    intro st pools _
    constructor
    · simp only [hopSeq, List.map_nil]
      exact List.chain'_singleton pools
    · intro h hh
      simp [hopSeq] at hh
  | succ n ih =>
    intro st pools hnd
    have hpool : (execHop (knowledgeComponents ns rf minp threshold candf nllf)
        rate st pools).1.pool =
        selectBatch minp threshold (candf (ns rate st).state) 0 pools := rfl
    have hms : (execHop (knowledgeComponents ns rf minp threshold candf nllf)
        rate st pools).2 =
        selectBatch minp threshold (candf (ns rate st).state) 0 pools := rfl
    have hstate : (execHop (knowledgeComponents ns rf minp threshold candf nllf)
        rate st pools).1.state = (ns rate st).state := rfl
    have hsup : List.Forall₂ (fun x y => x ⊆ y) pools
        (selectBatch minp threshold (candf (ns rate st).state) 0 pools) :=
      selectBatch_forall₂ minp threshold (candf (ns rate st).state) 0 pools
    have hsz : ∀ q ∈ selectBatch minp threshold (candf (ns rate st).state) 0 pools,
        minp ≤ q.length ∧ q.Nodup :=
      selectBatch_mem minp threshold (candf (ns rate st).state)
        (hcand (ns rate st).state) 0 pools hnd
    simp only [hopSeq]
    split
    · constructor
      · simp only [List.map_cons, List.map_nil, hpool]
        exact (List.chain'_cons).mpr ⟨hsup, List.chain'_singleton _⟩
      · intro h hh
        simp only [List.mem_singleton] at hh
        subst hh
        rw [hpool]
        intro p hp
        exact hsz p hp
    · have ihx := ih (execHop (knowledgeComponents ns rf minp threshold candf nllf)
          rate st pools).1.state
        (execHop (knowledgeComponents ns rf minp threshold candf nllf)
          rate st pools).2
        (by
          rw [hms]
          intro p hp
          exact (hsz p hp).2)
      constructor
      · simp only [List.map_cons]
        rw [List.chain'_cons]
        constructor
        · rw [hpool]
          exact hsup
        · have := ihx.1
          rw [hms] at this
          rw [hpool]
          rw [hms] at ihx ⊢
          exact this
      · intro h hh
        simp only [List.mem_cons] at hh
        rcases hh with hh | hh
        · subst hh
          rw [hpool]
          intro p hp
          exact hsz p hp
        · exact ihx.2 h hh

/-- C6: within one forward pass driven by the spec-modelled knowledge
selector, the per-example knowledge pools grow monotonically hop over hop —
each hop's pool is a pointwise superset of the previous hop's (and the
first of the initial pools) — and, whenever at least min_poolsize
candidate items (with distinct ids) are available at every call, every
produced pool has size at least min_poolsize. -/
theorem c6_pool_min_size_and_monotone (m : KnowledgeSelectionModel)
    (ns : Rat → σ → NodeOut σ)
    (rf : σ → List (List Nat) → Unit → RewardOut Unit Unit)
    (threshold : Rat) (candf : σ → Nat → List (Nat × Rat)) (nllf : σ → Rat)
    (st0 : σ) (pools0 : List (List Nat))
    (hcand : ∀ st j, m.min_poolsize ≤ (candf st j).length ∧
      ((candf st j).map Prod.fst).Nodup)
    (hp0 : ∀ p ∈ pools0, p.Nodup) :
    List.Chain' (List.Forall₂ (fun x y => x ⊆ y))
      (pools0 :: (m.forwardHops (knowledgeComponents ns rf m.min_poolsize
          threshold candf nllf) st0 pools0).map HopData.pool)
    ∧ ∀ h ∈ m.forwardHops (knowledgeComponents ns rf m.min_poolsize
          threshold candf nllf) st0 pools0,
        ∀ p ∈ h.pool, m.min_poolsize ≤ p.length := by
  have := knowledge_loop_invariant ns rf m.min_poolsize threshold candf nllf
    m.early_stop m.avg_pool_size m.label_smoothing_rate hcand
    m.max_hops st0 pools0 hp0
  exact ⟨this.1, fun h hh p hp => (this.2 h hh p hp).1⟩

/-- C6 (witness): on the concrete model (min_poolsize 1, two hops) with one
candidate item offered per call, the pools chain upward from the initial
empty pool and every produced pool has at least one item. -/
theorem c6_pool_min_size_and_monotone_witness :
    List.Chain' (List.Forall₂ (fun x y => x ⊆ y))
      ([([] : List Nat)] :: (modelA.forwardHops (knowledgeComponents unitNodeSel
          unitRewardFn modelA.min_poolsize 0 constCandf (fun _ => 0)) ()
          [([] : List Nat)]).map HopData.pool)
    ∧ ∀ h ∈ modelA.forwardHops (knowledgeComponents unitNodeSel unitRewardFn
          modelA.min_poolsize 0 constCandf (fun _ => 0)) () [([] : List Nat)],
        ∀ p ∈ h.pool, modelA.min_poolsize ≤ p.length :=
  c6_pool_min_size_and_monotone modelA unitNodeSel unitRewardFn 0 constCandf
    (fun _ => 0) () [([] : List Nat)]
    (fun _ _ => ⟨by norm_num [modelA, optA, KnowledgeSelectionModel.init, constCandf],
      by simp [constCandf]⟩)
    (by simp)

theorem hopSeq_state_nodeSel (c : Components σ μ ρ τ ε) (es : Bool)
    (ap rate : Rat) :
    ∀ (n : Nat) (st : σ) (ms : μ), ∀ h ∈ hopSeq c es ap rate n st ms,
      h.state = (c.nodeSel rate h.pre).state := by
  intro n
  induction n with
  | zero => intro st ms h hh; simp [hopSeq] at hh
  | succ n ih =>
    intro st ms h hh
    simp only [hopSeq] at hh
    split at hh
    · simp only [List.mem_singleton] at hh
      subst hh
      rfl
    · rcases List.mem_cons.mp hh with hh | hh
      · subst hh
        rfl
      · exact ih _ _ h hh

theorem chooseFrom_not_visited (pick : List Nat → Option Nat)
    (cands : List Nat) (st : NodeState υ)
    (hpick : ∀ l : List Nat, l ≠ [] → ∃ n, pick l = some n ∧ n ∈ l)
    (hne : unvisited cands st ≠ []) :
    chooseFrom pick cands st ∉ st.visited := by
  obtain ⟨n, hsome, hmem⟩ := hpick _ hne
  unfold chooseFrom
  rw [hsome]
  unfold unvisited at hmem
  exact of_decide_eq_true (List.mem_filter.mp hmem).2

theorem hopSeq_visited_mono (c : Components (NodeState υ) μ ρ τ ε)
    (pick : List Nat → Option Nat) (w : υ → Nat → Rat) (upd : υ → Nat → υ)
    (nllf : υ → Rat) (cands : List Nat)
    (hc : c.nodeSel = nodeSelStep pick w upd nllf cands)
    (es : Bool) (ap rate : Rat) :
    ∀ (n : Nat) (st : NodeState υ) (ms : μ), ∀ h ∈ hopSeq c es ap rate n st ms,
      st.visited ⊆ h.pre.visited := by
  intro n
  induction n with
  | zero => intro st ms h hh; simp [hopSeq] at hh
  | succ n ih =>
    intro st ms h hh
    have hgrow : st.visited ⊆
        (execHop c rate st ms).1.state.visited := by
      have : (execHop c rate st ms).1.state = (c.nodeSel rate st).state := rfl
      rw [this, hc]
      exact Finset.subset_insert _ _
    simp only [hopSeq] at hh
    split at hh
    · simp only [List.mem_singleton] at hh
      subst hh
      exact Finset.Subset.refl _
    · rcases List.mem_cons.mp hh with hh | hh
      · subst hh
        exact Finset.Subset.refl _
      · exact Finset.Subset.trans hgrow (ih _ _ h hh)

theorem hopSeq_chosen_nodup (c : Components (NodeState υ) μ ρ τ ε)
    (pick : List Nat → Option Nat) (w : υ → Nat → Rat) (upd : υ → Nat → υ)
    (nllf : υ → Rat) (cands : List Nat)
    (hc : c.nodeSel = nodeSelStep pick w upd nllf cands)
    (hpick : ∀ l : List Nat, l ≠ [] → ∃ n, pick l = some n ∧ n ∈ l)
    (es : Bool) (ap rate : Rat) :
    ∀ (n : Nat) (st : NodeState υ) (ms : μ),
      (∀ h ∈ hopSeq c es ap rate n st ms, unvisited cands h.pre ≠ []) →
      ((hopSeq c es ap rate n st ms).map
        (fun h => h.state.current_node)).Nodup := by
  intro n
  induction n with
  | zero => intro st ms _; simp [hopSeq]
  | succ n ih =>
    intro st ms hne
    have hhead : (execHop c rate st ms).1.state = (c.nodeSel rate st).state := rfl
    simp only [hopSeq] at hne ⊢
    by_cases hcond : es = true ∧ (execHop c rate st ms).1.mean_k < ap
    · rw [if_pos hcond]
      simp
    · rw [if_neg hcond]
      rw [if_neg hcond] at hne
      simp only [List.map_cons, List.nodup_cons]
      constructor
      · intro hmem
        rw [List.mem_map] at hmem
        obtain ⟨h', hh', heq⟩ := hmem
        have hst' : h'.state = (c.nodeSel rate h'.pre).state :=
          hopSeq_state_nodeSel c es ap rate n _ _ h' hh'
        have hch' : h'.state.current_node = chooseFrom pick cands h'.pre := by
          rw [hst', hc]
          rfl
        have hnotv : chooseFrom pick cands h'.pre ∉ h'.pre.visited :=
          chooseFrom_not_visited pick cands h'.pre hpick
            (hne h' (List.mem_cons_of_mem _ hh'))
        have hmono : (execHop c rate st ms).1.state.visited ⊆ h'.pre.visited :=
          hopSeq_visited_mono c pick w upd nllf cands hc es ap rate n _ _ h' hh'
        have hchosen : (execHop c rate st ms).1.state.current_node ∈
            (execHop c rate st ms).1.state.visited := by
          rw [hhead, hc]
          exact Finset.mem_insert_self _ _
        have : (execHop c rate st ms).1.state.current_node ∈ h'.pre.visited :=
          hmono hchosen
        rw [← heq, hch'] at this
        exact hnotv this
      · exact ih _ _ (fun h hh => hne h (List.mem_cons_of_mem _ hh))

/-- C5: with the spec-modelled node selector, at every executed hop of the
walk the selection distribution assigns probability 0 to every node
already marked visited in the VisitTrace, and — barring the degenerate
all-visited case, i.e. when some unvisited candidate remains at each hop —
the node chosen at each hop was not previously visited and no node is
selected twice within one walk. -/
theorem c5_visited_nodes_never_reselected (m : KnowledgeSelectionModel)
    (c : Components (NodeState υ) μ ρ τ ε)
    (pick : List Nat → Option Nat) (w : υ → Nat → Rat) (upd : υ → Nat → υ)
    (nllf : υ → Rat) (cands : List Nat)
    (hc : c.nodeSel = nodeSelStep pick w upd nllf cands)
    (hpick : ∀ l : List Nat, l ≠ [] → ∃ n, pick l = some n ∧ n ∈ l)
    (st0 : NodeState υ) (ms0 : μ)
    (hne : ∀ h ∈ m.forwardHops c st0 ms0, unvisited cands h.pre ≠ []) :
    (∀ h ∈ m.forwardHops c st0 ms0, ∀ i ∈ h.pre.visited,
        nodeProb (w h.pre.agent) cands h.pre i = 0)
    ∧ (∀ h ∈ m.forwardHops c st0 ms0, h.state.current_node ∉ h.pre.visited)
    ∧ ((m.forwardHops c st0 ms0).map (fun h => h.state.current_node)).Nodup := by
  refine ⟨?_, ?_, ?_⟩
  · intro h _ i hi
    simp [nodeProb, hi]
  · intro h hh
    have hst : h.state = (c.nodeSel m.label_smoothing_rate h.pre).state :=
      hopSeq_state_nodeSel c m.early_stop m.avg_pool_size
        m.label_smoothing_rate m.max_hops st0 ms0 h hh
    rw [hst, hc]
    exact chooseFrom_not_visited pick cands h.pre hpick (hne h hh)
  · exact hopSeq_chosen_nodup c pick w upd nllf cands hc hpick
      m.early_stop m.avg_pool_size m.label_smoothing_rate m.max_hops st0 ms0 hne

/-- C5 (witness): on the concrete two-hop walk over candidates [0, 1, 2]
starting with nothing visited, every visited node carries zero probability
at each hop, each chosen node was unvisited, and the two chosen nodes are
distinct. -/
theorem c5_visited_nodes_never_reselected_witness :
    (∀ h ∈ modelA.forwardHops nodeWalkComponents nodeWalkStart (),
        ∀ i ∈ h.pre.visited,
        nodeProb (fun _ => (1 : Rat)) [0, 1, 2] h.pre i = 0)
    ∧ (∀ h ∈ modelA.forwardHops nodeWalkComponents nodeWalkStart (),
        h.state.current_node ∉ h.pre.visited)
    ∧ ((modelA.forwardHops nodeWalkComponents nodeWalkStart ()).map
        (fun h => h.state.current_node)).Nodup :=
  c5_visited_nodes_never_reselected modelA nodeWalkComponents pickHead
    (fun _ _ => 1) (fun u _ => u) (fun _ => 0) [0, 1, 2] rfl
    (by
      intro l hl
      cases l with
      | nil => exact absurd rfl hl
      | cons a t => exact ⟨a, rfl, List.mem_cons_self a t⟩)
    nodeWalkStart () (by decide)

/-- C10 (witness): with a zero hop budget the forward pass is undefined,
and with the two-hop model the returned triple is that of the last hop. -/
theorem c10_outputs_from_final_hop_witness :
    KnowledgeSelectionModel.forward modelH0 unitComponents true () () = none :=
  (c10_outputs_from_final_hop modelH0 unitComponents true () ()).2.mpr rfl

end KnowledgeSelection
